import Mathlib

/-!
Verification of the delimited-text import logic of `mathesar/imports/csv.py`
(`check_dialect`, `get_sv_dialect`, `validate_paste`) and its helper constants.

Strings are modelled as `List Char`.  The Python regular-expression splits
of `validate_paste` (patterns `\s{2,}` and `\s{2,}|\t`) are embedded by a
single left-to-right scan: `re.split` cuts the string at every leftmost,
greedy, non-overlapping match of the pattern, and since `\s{2,}` is greedy a
match is exactly a maximal run of at least two whitespace characters (for the
second pattern, additionally a single tab character when the maximal run it
sits in has length one).  The scan below buffers each maximal whitespace run
(`pend`) and, on reaching a non-whitespace character or the end of the input,
decides whether the run was a separator.

The external `clevercsv` parser and detector are not part of the repository:
they enter the model as parameters (the detector as a function from the read
sample to an optional dialect, the reader as the sequence of parsed rows it
yields for a file).
-/

namespace Mathesar

/-- The set of characters matched by the Python regex class `\s` on `str`
(equivalently the characters on which `str.isspace()` holds). -/
def isPySpace (c : Char) : Bool :=
  c = ' ' || c = '\t' || c = '\n' || c = '\r' || c = '\x0b' || c = '\x0c' ||
  c = '\x1c' || c = '\x1d' || c = '\x1e' || c = '\x1f' || c = '\x85' ||
  c = '\u00A0' || c = '\u1680' ||
  (decide ('\u2000' ≤ c) && decide (c ≤ '\u200A')) ||
  c = '\u2028' || c = '\u2029' || c = '\u202F' || c = '\u205F' || c = '\u3000'

/-- Whether a buffered maximal whitespace run `pend` (stored reversed) is a
separator: a run of two or more whitespace characters always is; a run that
is exactly one tab character is a separator for the pattern `\s{2,}|\t`
(`tabSep = true`) but not for `\s{2,}` (`tabSep = false`). -/
def isSepRun (tabSep : Bool) (pend : List Char) : Bool :=
  2 ≤ pend.length || (tabSep && pend == ['\t'])

/-- One pass of `re.split` over the input.  `acc` is the current field so far
(reversed), `pend` the current maximal whitespace run so far (reversed).
On a non-whitespace character (or at the end) the buffered run is resolved:
if it is a separator the current field is emitted, otherwise the run belongs
to the field. -/
def svSplitAux (tabSep : Bool) (acc pend : List Char) : List Char → List (List Char)
  | [] =>
    if isSepRun tabSep pend then [acc.reverse, []]
    else [(pend ++ acc).reverse]
  | c :: cs =>
    if isPySpace c then svSplitAux tabSep acc (c :: pend) cs
    else if isSepRun tabSep pend then acc.reverse :: svSplitAux tabSep [c] [] cs
    else svSplitAux tabSep (c :: (pend ++ acc)) [] cs

/-- Embedding of `re.split` with pattern `\s{2,}`: the split used to derive
column names from the first pasted line. -/
def splitColumns (line : List Char) : List (List Char) :=
  svSplitAux false [] [] line

/-- Embedding of `re.split` with pattern `\s{2,}|\t`: the split used to parse
every pasted line into fields. -/
def splitRowFields (line : List Char) : List (List Char) :=
  svSplitAux true [] [] line

/-- Helper for `splitNl`: the scan behind the Python `str.split` on newline. -/
def splitNlAux (acc : List Char) : List Char → List (List Char)
  | [] => [acc.reverse]
  | c :: cs =>
    if c = '\n' then acc.reverse :: splitNlAux [] cs
    else splitNlAux (c :: acc) cs

/-- Embedding of `raw_paste.split` on the newline character. -/
def splitNl (raw : List Char) : List (List Char) :=
  splitNlAux [] raw

/-- The two error classes imported by `mathesar/imports/csv.py` from
`mathesar.errors`: `InvalidTableError` and `InvalidPasteError`. -/
inductive MathesarError where
  | invalidTableError
  | invalidPasteError
deriving DecidableEq, Repr

/-- The `for line in lines` loop of `validate_paste`: re-split each line with
the pattern `\s{2,}|\t`, raise `InvalidPasteError` as soon as the field count
of a line differs from `num_columns`, otherwise append the parsed line. -/
def parse_lines (num_columns : Nat) : List (List Char) → Except MathesarError (List (List (List Char)))
  | [] => .ok []
  | line :: rest =>
    let parsed_line := splitRowFields line
    if parsed_line.length ≠ num_columns then .error .invalidPasteError
    else
      match parse_lines num_columns rest with
      | .error e => .error e
      | .ok ps => .ok (parsed_line :: ps)

/-- Function `validate_paste(raw_paste)` from `mathesar/imports/csv.py`: split
the paste into lines on newline, raise `InvalidPasteError` if there are zero
lines, derive column names from the first line by splitting on `\s{2,}`,
then re-split every line (the first included) on `\s{2,}|\t` and require the
field count of every line to equal the column count. -/
def validate_paste (raw_paste : List Char) :
    Except MathesarError (List (List Char) × List (List (List Char))) :=
  let lines := splitNl raw_paste
  if lines.length = 0 then .error .invalidPasteError
  else
    let column_names := splitColumns (lines.headD [])
    let num_columns := column_names.length
    match parse_lines num_columns lines with
    | .error e => .error e
    | .ok parsed_lines => .ok (column_names, parsed_lines)

/-- Module-level constants of `mathesar/imports/csv.py`. -/
def ALLOWED_DELIMITERS : List Char := [',', '\t', ':', '|', ' ']

/-- Constant `SAMPLE_SIZE` from `mathesar/imports/csv.py`. -/
def SAMPLE_SIZE : Nat := 20000

/-- Constant `CHECK_ROWS` from `mathesar/imports/csv.py`. -/
def CHECK_ROWS : Nat := 10

/-- A dialect as built by `csv.dialect.SimpleDialect(delimiter, quotechar,
escapechar)`. -/
structure Dialect where
  delimiter : Char
  quotechar : Char
  escapechar : Char
deriving DecidableEq, Repr

/-- An already opened text file: its content together with the current
stream position (`file.tell()`), in characters. -/
structure SVFile where
  content : List Char
  pos : Nat
deriving DecidableEq, Repr

/-- The read call `file.read(n)`: return up to `n` characters from the
current position and advance the position past them. -/
def fileRead (f : SVFile) (n : Nat) : List Char × SVFile :=
  ((f.content.drop f.pos).take n,
   ⟨f.content, min (f.pos + n) f.content.length⟩)

/-- The seek call `file.seek(n)`. -/
def fileSeek (f : SVFile) (n : Nat) : SVFile :=
  ⟨f.content, n⟩

/-- The `for _ in range(CHECK_ROWS)` loop of `check_dialect`: `prev` is
`prev_num_columns` (`none` for the Python `None`), `fuel` the remaining
iterations, and the list the rows still to be yielded by the `clevercsv`
reader (its exhaustion is the `StopIteration` that breaks the loop
and returns `True`). -/
def check_dialect_loop (prev : Option Nat) (fuel : Nat) : List (List String) → Bool
  | [] => true
  | row :: rest =>
    match fuel with
    | 0 => true
    | fuel + 1 =>
      match prev with
      | none => check_dialect_loop (some row.length) fuel rest
      | some p =>
        if p ≠ row.length then false
        else check_dialect_loop (some p) fuel rest

/-- Function `check_dialect(file, dialect)` from `mathesar/imports/csv.py`,
with the external `clevercsv` reader modelled by the sequence of rows it
yields for the file under the dialect: parse the first `CHECK_ROWS` rows and
return `False` if any of them has a column count differing from that of the
first row, otherwise (also when fewer rows exist) `True`. -/
def check_dialect (rows : List (List String)) : Bool :=
  check_dialect_loop none CHECK_ROWS rows

/-- Function `get_sv_dialect(file)` from `mathesar/imports/csv.py`.  The external
`clevercsv` detector is the parameter `detect` (from the sample read and the
allowed delimiters to an optional dialect) and the external reader is the
parameter `readRows` (from a dialect and a file state to the rows it parses
and the file state it leaves behind).  Read `SAMPLE_SIZE` characters, detect;
on `None` raise `InvalidTableError`; otherwise seek to 0, check the dialect,
and on success seek to 0 again and return the dialect, on failure raise
`InvalidTableError`. -/
def get_sv_dialect
    (detect : List Char → List Char → Option Dialect)
    (readRows : Dialect → SVFile → List (List String) × SVFile)
    (file : SVFile) : Except MathesarError (Dialect × SVFile) :=
  let r0 := fileRead file SAMPLE_SIZE
  match detect r0.1 ALLOWED_DELIMITERS with
  | none => .error .invalidTableError
  | some dialect =>
    let file2 := fileSeek r0.2 0
    let r1 := readRows dialect file2
    if check_dialect r1.1 then .ok (dialect, fileSeek r1.2 0)
    else .error .invalidTableError

/-- Whether a line contains no two adjacent whitespace characters; on such a
line the pattern `\s{2,}` can never match. -/
def noDoubleWs : List Char → Bool
  | [] => true
  | [_] => true
  | a :: b :: rest => (!(isPySpace a && isPySpace b)) && noDoubleWs (b :: rest)

/-- The number of maximal whitespace runs of the input that consist of
exactly one tab character (isolated tabs), scanned with the same buffering
discipline as `svSplitAux`: `pend` is the whitespace run buffered so far
(reversed). -/
def isoTabsAux (pend : List Char) : List Char → Nat
  | [] => if pend == ['\t'] then 1 else 0
  | c :: cs =>
    if isPySpace c then isoTabsAux (c :: pend) cs
    else (if pend == ['\t'] then 1 else 0) + isoTabsAux [] cs

section Lemmas

lemma splitNlAux_ne_nil (l : List Char) : ∀ acc, splitNlAux acc l ≠ [] := by
  induction l with
  | nil => intro acc; simp [splitNlAux]
  | cons c cs ih =>
    intro acc
    by_cases h : c = '\n' <;> simp [splitNlAux, h, ih]

lemma splitNl_ne_nil (raw : List Char) : splitNl raw ≠ [] :=
  splitNlAux_ne_nil raw []

lemma parse_lines_ok_of_all (n : Nat) (ls : List (List Char))
    (h : ∀ l ∈ ls, (splitRowFields l).length = n) :
    parse_lines n ls = .ok (ls.map splitRowFields) := by
  induction ls with
  | nil => simp [parse_lines]
  | cons l rest ih =>
    have hl : (splitRowFields l).length = n := h l (List.mem_cons_self l rest)
    have hrest : ∀ x ∈ rest, (splitRowFields x).length = n :=
      fun x hx => h x (List.mem_cons_of_mem l hx)
    simp [parse_lines, hl, ih hrest]

lemma parse_lines_error_of_exists (n : Nat) (ls : List (List Char))
    (h : ∃ l ∈ ls, (splitRowFields l).length ≠ n) :
    parse_lines n ls = .error .invalidPasteError := by
  induction ls with
  | nil => simp at h
  | cons l rest ih =>
    by_cases hl : (splitRowFields l).length = n
    · obtain ⟨x, hx, hxn⟩ := h
      rcases List.mem_cons.mp hx with rfl | hx
      · exact absurd hl hxn
      · have := ih ⟨x, hx, hxn⟩
        simp [parse_lines, hl, this]
    · simp [parse_lines, hl]

lemma parse_lines_error_iff (n : Nat) (ls : List (List Char)) :
    parse_lines n ls = .error .invalidPasteError ↔
      ∃ l ∈ ls, (splitRowFields l).length ≠ n := by
  constructor
  · intro h
    by_contra hno
    push_neg at hno
    rw [parse_lines_ok_of_all n ls hno] at h
    exact absurd h (by simp)
  · exact parse_lines_error_of_exists n ls

lemma parse_lines_ok_inv (n : Nat) (ls : List (List Char)) :
    ∀ ps, parse_lines n ls = .ok ps →
      ps = ls.map splitRowFields ∧ ∀ l ∈ ls, (splitRowFields l).length = n := by
  induction ls with
  | nil => intro ps h; simp [parse_lines] at h; simp [h.symm]
  | cons l rest ih =>
    intro ps h
    by_cases hl : (splitRowFields l).length = n
    · rw [parse_lines, if_neg (by simpa using hl)] at h
      cases hr : parse_lines n rest with
      | error e => rw [hr] at h; exact absurd h (by simp)
      | ok ps2 =>
        rw [hr] at h
        obtain ⟨h1, h2⟩ := ih ps2 hr
        have hps : ps = splitRowFields l :: ps2 := by
          simpa using h.symm
        subst hps
        refine ⟨by simp [h1], ?_⟩
        intro x hx
        rcases List.mem_cons.mp hx with rfl | hx
        · exact hl
        · exact h2 x hx
    · rw [parse_lines, if_pos (by simpa using hl)] at h
      exact absurd h (by simp)

lemma validate_paste_eq (raw : List Char) :
    validate_paste raw =
      match parse_lines (splitColumns ((splitNl raw).headD [])).length (splitNl raw) with
      | .error e => .error e
      | .ok ps => .ok (splitColumns ((splitNl raw).headD []), ps) := by
  have h : ¬ (splitNl raw).length = 0 := by
    simpa [List.length_eq_zero] using splitNl_ne_nil raw
  simp only [validate_paste, if_neg h]

lemma noDoubleWs_tail {c : Char} {cs : List Char}
    (h : noDoubleWs (c :: cs) = true) : noDoubleWs cs = true := by
  cases cs with
  | nil => rfl
  | cons d ds =>
    simp only [noDoubleWs, Bool.and_eq_true] at h
    exact h.2

lemma noDoubleWs_head {c d : Char} {ds : List Char}
    (h : noDoubleWs (c :: d :: ds) = true) (hc : isPySpace c = true) :
    isPySpace d = false := by
  cases hd : isPySpace d with
  | false => rfl
  | true => simp [noDoubleWs, hc, hd] at h

lemma svSplitAux_no_sep (l : List Char) : ∀ (acc pend : List Char),
    '\t' ∉ l → noDoubleWs l = true → isSepRun true pend = false →
    (pend = [] ∨ l = [] ∨ isPySpace (l.headD 'a') = false) →
    svSplitAux true acc pend l = [acc.reverse ++ (pend.reverse ++ l)] := by
  induction l with
  | nil =>
    intro acc pend _ _ hsep _
    simp [svSplitAux, hsep, List.reverse_append]
  | cons c cs ih =>
    intro acc pend htab hdw hsep hbound
    have htabc : c ≠ '\t' := fun h => htab (h ▸ List.mem_cons_self c cs)
    have htabcs : '\t' ∉ cs := fun h => htab (List.mem_cons_of_mem c h)
    by_cases hws : isPySpace c = true
    · have hpend : pend = [] := by
        rcases hbound with h | h | h
        · exact h
        · exact absurd h (by simp)
        · exact absurd (by simpa using h) (by simp [hws])
      subst hpend
      rw [svSplitAux, if_pos hws]
      have hsep1 : isSepRun true [c] = false := by
        simp [isSepRun, htabc]
      have hbound1 : [c] = [] ∨ cs = [] ∨ isPySpace (cs.headD 'a') = false := by
        cases cs with
        | nil => exact Or.inr (Or.inl rfl)
        | cons d ds => exact Or.inr (Or.inr (by simpa using noDoubleWs_head hdw hws))
      rw [ih acc [c] htabcs (noDoubleWs_tail hdw) hsep1 hbound1]
      simp
    · rw [svSplitAux, if_neg hws, if_neg (by simp [hsep])]
      have hbound1 : ([] : List Char) = [] ∨ cs = [] ∨ isPySpace (cs.headD 'a') = false :=
        Or.inl rfl
      rw [ih (c :: (pend ++ acc)) [] htabcs (noDoubleWs_tail hdw) (by simp [isSepRun]) hbound1]
      simp [List.reverse_append]

lemma svSplitAux_length_tab (l : List Char) : ∀ (acc acc2 pend : List Char),
    (svSplitAux true acc pend l).length =
      (svSplitAux false acc2 pend l).length + isoTabsAux pend l := by
  induction l with
  | nil =>
    intro acc acc2 pend
    by_cases h1 : pend = ['\t']
    · subst h1
      simp [svSplitAux, isoTabsAux, isSepRun]
    · have hbeq : (pend == ['\t']) = false := by simpa using h1
      by_cases h2 : 2 ≤ pend.length <;>
        simp [svSplitAux, isoTabsAux, isSepRun, hbeq, h2]
  | cons c cs ih =>
    intro acc acc2 pend
    cases hws : isPySpace c with
    | true =>
      simp only [svSplitAux, isoTabsAux, hws, if_pos]
      exact ih acc acc2 (c :: pend)
    | false =>
      by_cases h1 : pend = ['\t']
      · subst h1
        have hsT : isSepRun true ['\t'] = true := by simp [isSepRun]
        have hsF : isSepRun false ['\t'] = false := by simp [isSepRun]
        have e := ih [c] (c :: ('\t' :: acc2)) []
        simp only [svSplitAux, isoTabsAux, hws, hsT, hsF, Bool.false_eq_true, if_false,
          List.singleton_append, beq_self_eq_true, if_true, List.length_cons] at e ⊢
        omega
      · have hbeq : (pend == ['\t']) = false := by simpa using h1
        by_cases h2 : 2 ≤ pend.length
        · have hsT : isSepRun true pend = true := by simp [isSepRun, h2]
          have hsF : isSepRun false pend = true := by simp [isSepRun, h2]
          have e := ih [c] [c] []
          simp only [svSplitAux, isoTabsAux, hws, hsT, hsF, hbeq, Bool.false_eq_true,
            if_false, if_true, List.length_cons] at e ⊢
          omega
        · have hsT : isSepRun true pend = false := by
            simp only [isSepRun, hbeq, Bool.and_false, Bool.or_false]
            simpa using h2
          have hsF : isSepRun false pend = false := by
            simp only [isSepRun, Bool.false_and, Bool.or_false]
            simpa using h2
          have e := ih (c :: (pend ++ acc)) (c :: (pend ++ acc2)) []
          simp only [svSplitAux, isoTabsAux, hws, hsT, hsF, hbeq, Bool.false_eq_true,
            if_false, List.length_cons] at e ⊢
          omega

lemma isoTabsAux_pos (a : List Char) : ∀ (pend b : List Char),
    Option.all (fun c => !isPySpace c) a.getLast? = true →
    Option.all (fun c => !isPySpace c) b.head? = true →
    (a = [] → pend = []) →
    1 ≤ isoTabsAux pend (a ++ '\t' :: b) := by
  induction a with
  | nil =>
    intro pend b _ hb hpend
    have hp : pend = [] := hpend rfl
    subst hp
    rw [List.nil_append]
    simp only [isoTabsAux, show isPySpace '\t' = true from rfl, if_true]
    cases b with
    | nil => simp [isoTabsAux]
    | cons d ds =>
      have hd : isPySpace d = false := by simpa using hb
      simp [isoTabsAux, hd]
  | cons c a2 ih =>
    intro pend b ha hb _
    cases a2 with
    | nil =>
      have hc : isPySpace c = false := by simpa [List.getLast?] using ha
      rw [List.cons_append]
      have h1 := ih [] b (by simp) hb (fun _ => rfl)
      rw [List.nil_append] at h1
      simp only [isoTabsAux, List.cons_append, List.nil_append, List.append_eq, hc,
        show isPySpace '\t' = true from rfl, Bool.false_eq_true, if_false, if_true] at h1 ⊢
      omega
    | cons e a3 =>
      have ha2 : Option.all (fun c => !isPySpace c) (e :: a3).getLast? = true := by
        rwa [List.getLast?_cons_cons] at ha
      rw [List.cons_append]
      cases hws : isPySpace c with
      | true =>
        simp only [isoTabsAux, hws, if_true]
        exact ih (c :: pend) b ha2 hb (fun h => absurd h (by simp))
      | false =>
        have h1 := ih [] b ha2 hb (fun _ => rfl)
        simp only [isoTabsAux, List.cons_append, List.nil_append, List.append_eq, hws,
          Bool.false_eq_true, if_false] at h1 ⊢
        omega

lemma check_dialect_loop_some (rs : List (List String)) : ∀ (fuel p : Nat),
    check_dialect_loop (some p) fuel rs = true ↔ ∀ r ∈ rs.take fuel, r.length = p := by
  induction rs with
  | nil => intro fuel p; simp [check_dialect_loop]
  | cons r rest ih =>
    intro fuel p
    cases fuel with
    | zero => simp [check_dialect_loop]
    | succ n =>
      by_cases h : p = r.length
      · subst h
        simp [check_dialect_loop, List.take_succ_cons, ih n]
      · simp [check_dialect_loop, List.take_succ_cons, h, Ne.symm h]

lemma check_dialect_loop_none (rows : List (List String)) (fuel : Nat) :
    check_dialect_loop none fuel rows = true ↔
      ∀ r ∈ rows.take fuel, r.length = (rows.headD []).length := by
  cases rows with
  | nil => simp [check_dialect_loop]
  | cons r rest =>
    cases fuel with
    | zero => simp [check_dialect_loop]
    | succ n =>
      have h0 : check_dialect_loop none (n + 1) (r :: rest) =
          check_dialect_loop (some r.length) n rest := rfl
      rw [h0, check_dialect_loop_some rest n r.length]
      simp [List.take_succ_cons]

end Lemmas

/-- C1: `check_dialect` returns `True` if and only if every one of the first
`CHECK_ROWS = 10` rows parsed by the reader has the same column count as the
first parsed row; when the file yields fewer than 10 rows the loop stops
early and still returns `True` provided all rows seen agree with the first
row. -/
theorem check_dialect_true_iff_first_rows_uniform :
    ∀ rows : List (List String),
      check_dialect rows = true ↔
        ∀ r ∈ rows.take CHECK_ROWS, r.length = (rows.headD []).length :=
  fun rows => check_dialect_loop_none rows CHECK_ROWS

/-- C2 counterexample: at concrete inputs, a failed detection (detector
returns `None`) and a failed row-consistency validation raise the very same
error value `InvalidTableError` — the code has no distinct `DetectionError`
kind for the detection-failure case. -/
theorem get_sv_dialect_same_error_on_detection_and_validation_failure :
    get_sv_dialect (fun _ _ => none) (fun _ f => ([], f))
        ⟨"a,b\n1,2".data, 0⟩ = .error .invalidTableError ∧
      get_sv_dialect (fun _ _ => some ⟨',', '"', '"'⟩)
        (fun _ f => ([["a", "b"], ["c"]], f))
        ⟨"a,b\nc".data, 0⟩ = .error .invalidTableError :=
  ⟨rfl, rfl⟩

/-- C2 amended: when the detector infers no dialect from the sample,
`get_sv_dialect` raises `InvalidTableError` — the same error class it raises
when a detected dialect fails row-consistency validation. -/
theorem get_sv_dialect_detection_failure_raises_invalidTableError :
    ∀ (detect : List Char → List Char → Option Dialect)
      (readRows : Dialect → SVFile → List (List String) × SVFile)
      (file : SVFile),
      detect (fileRead file SAMPLE_SIZE).1 ALLOWED_DELIMITERS = none →
      get_sv_dialect detect readRows file = .error .invalidTableError := by
  intro detect readRows file h
  simp only [get_sv_dialect, h]

/-- Witness for C2 amended at a concrete detector, reader and file. -/
theorem get_sv_dialect_detection_failure_raises_invalidTableError_witness :
    get_sv_dialect (fun _ _ => none) (fun _ f => ([], f))
      ⟨"a|b".data, 0⟩ = .error .invalidTableError :=
  get_sv_dialect_detection_failure_raises_invalidTableError
    (fun _ _ => none) (fun _ f => ([], f)) ⟨"a|b".data, 0⟩ rfl

/-- C3 counterexample: on the spec example with its trailing newline,
`validate_paste` does not succeed: the newline split produces a final empty
line whose single field disagrees with the two derived columns, so
`InvalidPasteError` is raised. -/
theorem validate_paste_spec_example_with_trailing_newline_errors :
    validate_paste "Name  Age\nAlice  30\nBob  40\n".data =
      .error .invalidPasteError := rfl

/-- C3 amended: without the trailing newline the example paste succeeds,
returning columns `Name`, `Age` and the per-line field sequences of all
three lines in order — the header line included as the first parsed line. -/
theorem validate_paste_example_without_trailing_newline :
    validate_paste "Name  Age\nAlice  30\nBob  40".data =
      .ok (["Name".data, "Age".data],
        [["Name".data, "Age".data], ["Alice".data, "30".data],
          ["Bob".data, "40".data]]) := rfl

/-- C4: whenever `get_sv_dialect` returns successfully, the stream position
of the returned file state is 0, so the caller can re-read the file from the
beginning. -/
theorem get_sv_dialect_success_rewinds_to_zero :
    ∀ (detect : List Char → List Char → Option Dialect)
      (readRows : Dialect → SVFile → List (List String) × SVFile)
      (file : SVFile) (d : Dialect) (f2 : SVFile),
      get_sv_dialect detect readRows file = .ok (d, f2) → f2.pos = 0 := by
  intro detect readRows file d f2 h
  simp only [get_sv_dialect] at h
  split at h
  · exact absurd h (by simp)
  · split at h
    · simp only [Except.ok.injEq, Prod.mk.injEq] at h
      rw [← h.2]
      rfl
    · exact absurd h (by simp)

/-- Witness for C4 at a concrete detector, reader and file. -/
theorem get_sv_dialect_success_rewinds_to_zero_witness :
    get_sv_dialect (fun _ _ => some ⟨',', '"', '"'⟩) (fun _ f => ([], f))
        ⟨"a,b".data, 3⟩ = .ok (⟨',', '"', '"'⟩, ⟨"a,b".data, 0⟩) ∧
      SVFile.pos ⟨"a,b".data, 0⟩ = 0 :=
  ⟨rfl, get_sv_dialect_success_rewinds_to_zero
    (fun _ _ => some ⟨',', '"', '"'⟩) (fun _ f => ([], f))
    ⟨"a,b".data, 3⟩ ⟨',', '"', '"'⟩ ⟨"a,b".data, 0⟩ rfl⟩

/-- C5: `validate_paste` raises its paste error (the `InvalidPasteError`
class, which the spec calls `ColumnCountMismatchError` on this branch)
exactly when some newline-split line re-splits into a field count different
from the column count derived from the first line; in particular the spec
example with a tab-separated second line raises it. -/
theorem validate_paste_error_iff_field_count_mismatch :
    (∀ raw : List Char,
        validate_paste raw = .error .invalidPasteError ↔
          ∃ l ∈ splitNl raw,
            (splitRowFields l).length ≠
              (splitColumns ((splitNl raw).headD [])).length) ∧
      validate_paste "Name  Age\nAlice\t30\t5\n".data =
        .error .invalidPasteError := by
  constructor
  · intro raw
    rw [validate_paste_eq]
    constructor
    · intro h
      by_contra hno
      push_neg at hno
      rw [parse_lines_ok_of_all _ _ hno] at h
      simp at h
    · intro hex
      rw [parse_lines_error_of_exists _ _ hex]
  · rfl

/-- C6: on success, the returned column names are the `\s{2,}`-split of the
first newline-split line, and the returned parsed lines are exactly the
`\s{2,}|\t`-splits of all the lines, the first included, in order. -/
theorem validate_paste_ok_uses_spec_splits :
    ∀ (raw : List Char) cols parsed,
      validate_paste raw = .ok (cols, parsed) →
      cols = splitColumns ((splitNl raw).headD []) ∧
      parsed = (splitNl raw).map splitRowFields := by
  intro raw cols parsed h
  rw [validate_paste_eq] at h
  cases hp : parse_lines (splitColumns ((splitNl raw).headD [])).length (splitNl raw) with
  | error e => rw [hp] at h; exact absurd h (by simp)
  | ok ps =>
    rw [hp] at h
    simp only [Except.ok.injEq, Prod.mk.injEq] at h
    obtain ⟨hmap, _⟩ := parse_lines_ok_inv _ _ ps hp
    exact ⟨h.1.symm, by rw [← h.2, hmap]⟩

/-- Witness for C6 at a concrete paste. -/
theorem validate_paste_ok_uses_spec_splits_witness :
    validate_paste "a  b\nc\td".data =
        .ok (["a".data, "b".data], [["a".data, "b".data], ["c".data, "d".data]]) ∧
      (["a".data, "b".data] = splitColumns ((splitNl "a  b\nc\td".data).headD []) ∧
        [["a".data, "b".data], ["c".data, "d".data]] =
          (splitNl "a  b\nc\td".data).map splitRowFields) :=
  ⟨rfl, validate_paste_ok_uses_spec_splits "a  b\nc\td".data
    ["a".data, "b".data] [["a".data, "b".data], ["c".data, "d".data]] rfl⟩

/-- C7: the empty paste is not an error: it yields one empty line, one empty
column name and one parsed line; and for every input the newline split is
nonempty, so the zero-lines `InvalidPasteError` branch is never taken. -/
theorem validate_paste_empty_string_succeeds :
    validate_paste [] = .ok ([[]], [[[]]]) ∧
      ∀ raw : List Char, 0 < (splitNl raw).length :=
  ⟨rfl, fun raw => List.length_pos.mpr (splitNl_ne_nil raw)⟩

/-- C8: on a line with no tab character and no two adjacent whitespace
characters — in particular one whose only whitespace is single spaces with
non-whitespace on both sides — the row re-split of `validate_paste` finds no
separator and returns the line as one intact field. -/
theorem splitRowFields_single_space_kept :
    ∀ l : List Char, '\t' ∉ l → noDoubleWs l = true → splitRowFields l = [l] := by
  intro l htab hdw
  have h := svSplitAux_no_sep l [] [] htab hdw (by simp [isSepRun]) (Or.inl rfl)
  simpa [splitRowFields] using h

/-- Witness for C8 on the spec field containing a single interior space. -/
theorem splitRowFields_single_space_kept_witness :
    '\t' ∉ "New York".data ∧ noDoubleWs "New York".data = true ∧
      splitRowFields "New York".data = ["New York".data] :=
  ⟨by decide, by decide,
    splitRowFields_single_space_kept "New York".data (by decide) (by decide)⟩

/-- C9: on success, the returned `parsed_lines` is exactly the list of the
row re-splits of the newline-split lines of the input, entry by entry — one
entry for each line, the header line included, in original line order — so
in particular it has one entry per line, and every entry has exactly as many
fields as there are column names. -/
theorem validate_paste_ok_row_shape :
    ∀ (raw : List Char) cols parsed,
      validate_paste raw = .ok (cols, parsed) →
      parsed = (splitNl raw).map splitRowFields ∧
        parsed.length = (splitNl raw).length ∧
        ∀ r ∈ parsed, r.length = cols.length := by
  intro raw cols parsed h
  rw [validate_paste_eq] at h
  cases hp : parse_lines (splitColumns ((splitNl raw).headD [])).length (splitNl raw) with
  | error e => rw [hp] at h; exact absurd h (by simp)
  | ok ps =>
    rw [hp] at h
    simp only [Except.ok.injEq, Prod.mk.injEq] at h
    obtain ⟨hmap, hlen⟩ := parse_lines_ok_inv _ _ ps hp
    have hparsed : parsed = (splitNl raw).map splitRowFields := by
      rw [← h.2, hmap]
    refine ⟨hparsed, by rw [hparsed]; simp, ?_⟩
    intro r hr
    rw [hparsed] at hr
    obtain ⟨l, hl, rfl⟩ := List.mem_map.mp hr
    rw [← h.1]
    exact hlen l hl

/-- Witness for C9 at a concrete paste. -/
theorem validate_paste_ok_row_shape_witness :
    validate_paste "x  y\nu\tv".data =
        .ok (["x".data, "y".data], [["x".data, "y".data], ["u".data, "v".data]]) ∧
      ([["x".data, "y".data], ["u".data, "v".data]] =
          (splitNl "x  y\nu\tv".data).map splitRowFields ∧
        [["x".data, "y".data], ["u".data, "v".data]].length =
          (splitNl "x  y\nu\tv".data).length ∧
        ∀ r ∈ [["x".data, "y".data], ["u".data, "v".data]],
          r.length = ["x".data, "y".data].length) :=
  ⟨rfl, validate_paste_ok_row_shape "x  y\nu\tv".data
    ["x".data, "y".data] [["x".data, "y".data], ["u".data, "v".data]] rfl⟩

/-- C10: when the first newline-split line decomposes as `a ++ tab ++ b`
with the last character of `a` (if any) and the first character of `b` (if
any) non-whitespace — a tab not inside a run of two or more whitespace
characters — the row re-split of the first line has strictly more fields
than its column-name split, so `validate_paste` always raises
`InvalidPasteError`. -/
theorem validate_paste_isolated_tab_in_first_line_errors :
    ∀ (raw a b : List Char),
      (splitNl raw).headD [] = a ++ '\t' :: b →
      Option.all (fun c => !isPySpace c) a.getLast? = true →
      Option.all (fun c => !isPySpace c) b.head? = true →
      (splitColumns ((splitNl raw).headD [])).length <
          (splitRowFields ((splitNl raw).headD [])).length ∧
        validate_paste raw = .error .invalidPasteError := by
  intro raw a b hdec ha hb
  have hiso : 1 ≤ isoTabsAux [] ((splitNl raw).headD []) := by
    rw [hdec]
    exact isoTabsAux_pos a [] b ha hb (fun _ => rfl)
  have hlen : (splitRowFields ((splitNl raw).headD [])).length =
      (splitColumns ((splitNl raw).headD [])).length +
        isoTabsAux [] ((splitNl raw).headD []) :=
    svSplitAux_length_tab ((splitNl raw).headD []) [] [] []
  refine ⟨by omega, ?_⟩
  have hmem : (splitNl raw).headD [] ∈ splitNl raw := by
    cases h : splitNl raw with
    | nil => exact absurd h (splitNl_ne_nil raw)
    | cons x xs => simp
  have hex : ∃ l ∈ splitNl raw,
      (splitRowFields l).length ≠ (splitColumns ((splitNl raw).headD [])).length :=
    ⟨(splitNl raw).headD [], hmem, by omega⟩
  rw [validate_paste_eq, parse_lines_error_of_exists _ _ hex]

/-- Witness for C10 at a concrete paste with an isolated tab in its header. -/
theorem validate_paste_isolated_tab_in_first_line_errors_witness :
    (splitColumns ((splitNl "p\tq\nr".data).headD [])).length <
        (splitRowFields ((splitNl "p\tq\nr".data).headD [])).length ∧
      validate_paste "p\tq\nr".data = .error .invalidPasteError :=
  validate_paste_isolated_tab_in_first_line_errors "p\tq\nr".data
    ['p'] ['q'] (by decide) (by decide) (by decide)

end Mathesar
